import Mathlib

/-!
Verification of the object-gateway server (`main.go`): a shallow embedding of
its storage lister (`listObjectsByPrefix`, `getPreSignedLink`), its renderer
(`renderFileList`, `humanizeBytes`, the `text/tabwriter` layout and the
`strings.Replace` link substitution), its dispatcher (`buildHandler`) and the
logging wrapper (`responseWriter` / `withLogging`), together with theorems
checking the natural-language specification against this embedding.

Conventions of the embedding:
* Go `int64` becomes `Int` (with `Nat` used where the source guarantees
  non-negative values); Go integer division on the relevant non-negative
  operands coincides with `Nat` division.
* `time.Time` values are observed by the program only through their RFC3339
  rendering, so they are modelled by that rendering (`GoTime`).
* Pointer-typed AWS SDK fields (`*string`, `*int64`, `*bool`, `*time.Time`)
  become `Option` fields; the `aws.XValue` dereference helpers supply the Go
  zero values, exactly as the SDK helpers do.
* The S3 `ListObjectsV2` network call becomes a function from the request
  (prefix and optional continuation token) to a response or an error; the
  unbounded Go pagination loop becomes a fuel-indexed recursion whose result
  is `none` exactly when the loop would still be running after `fuel` calls.
-/

/-- Go `time.Time`, modelled by its RFC3339 rendering, which is the only
observation `main.go` ever makes of a timestamp. -/
structure GoTime where
  rfc3339 : String
deriving DecidableEq, Repr, Inhabited

/-- The Go zero `time.Time` as it would print under `Format(time.RFC3339)`;
this is what `aws.TimeValue(nil)` yields. -/
def goZeroTime : GoTime := ⟨"0001-01-01T00:00:00Z"⟩

/-- Model of `t.Format(time.RFC3339)`. -/
def GoTime.format (t : GoTime) : String := t.rfc3339

/-- Model of `aws.StringValue`: dereference with Go zero value `""`. -/
def awsStringValue (o : Option String) : String := o.getD ""

/-- Model of `aws.Int64Value`: dereference with Go zero value `0`. -/
def awsInt64Value (o : Option Int) : Int := o.getD 0

/-- Model of `aws.TimeValue`: dereference with the zero `time.Time`. -/
def awsTimeValue (o : Option GoTime) : GoTime := o.getD goZeroTime

/-- Model of `aws.BoolValue`: dereference with Go zero value `false`. -/
def awsBoolValue (o : Option Bool) : Bool := o.getD false

/-- One object record of an S3 `ListObjectsV2` response (`s3.Object`), with
its pointer fields made optional. -/
structure S3Object where
  Key : Option String
  Size : Option Int
  LastModified : Option GoTime
deriving DecidableEq, Repr

/-- One common-prefix record of an S3 `ListObjectsV2` response
(`s3.CommonPrefix`). -/
structure CommonPrefix where
  Prefix : Option String
deriving DecidableEq, Repr

/-- An S3 `ListObjectsV2` response page (`s3.ListObjectsV2Output`), restricted
to the fields `main.go` reads. -/
structure ListObjectsV2Output where
  Contents : List S3Object
  CommonPrefixes : List CommonPrefix
  IsTruncated : Option Bool
  NextContinuationToken : Option String
deriving DecidableEq, Repr

/-- The `file` struct of `main.go`.  Field defaults are the Go zero values
used when a composite literal omits a field. -/
structure file where
  name : String := ""
  isDir : Bool := false
  size : Int := 0
  lastModified : GoTime := goZeroTime
deriving DecidableEq, Repr, Inhabited

/-- Model of `strings.TrimPrefix s "/"`: remove one leading separator when
present. -/
def trimLeadingSlash (s : String) : String :=
  match s.data with
  | '/' :: rest => ⟨rest⟩
  | _ => s

/-- Model of `strings.HasSuffix(s, "/")`. -/
def endsWithSlash (s : String) : Bool := s.data.getLast? == some '/'

/-- One step of splitting a character list at a separator character (folded
from the right; the accumulator is never empty). -/
def splitCharStep (sep : Char) (c : Char) (acc : List (List Char)) : List (List Char) :=
  match acc with
  | [] => [[c]]
  | a :: as => if c = sep then [] :: a :: as else (c :: a) :: as

/-- Split a character list at a separator character, the single-character
case of `strings.Split` (always at least one piece; separators at the ends
yield empty pieces). -/
def splitOnChar (sep : Char) (l : List Char) : List (List Char) :=
  l.foldr (splitCharStep sep) [[]]

/-- The entries one response page contributes, in the order the source
appends them: first the `Contents` objects (non-directories carrying key,
size and last-modified), then the `CommonPrefixes` (directories). -/
def pageFiles (out : ListObjectsV2Output) : List file :=
  (out.Contents.map fun o =>
    { name := awsStringValue o.Key
      size := awsInt64Value o.Size
      lastModified := awsTimeValue o.LastModified }) ++
  (out.CommonPrefixes.map fun p =>
    { name := awsStringValue p.Prefix, isDir := true })

/-- The abstract S3 listing capability: a `ListObjectsV2` call, as a function
of the request's `Prefix` and optional `ContinuationToken` (the bucket and
the delimiter `"/"` are fixed by the program). -/
def S3ListAPI : Type := String → Option String → Except String ListObjectsV2Output

/-- The loop-exit test of `listObjectsByPrefix`:
`!aws.BoolValue(out.IsTruncated) || out.NextContinuationToken == nil`. -/
def pageFinal (out : ListObjectsV2Output) : Bool :=
  !awsBoolValue out.IsTruncated || out.NextContinuationToken.isNone

/-- The pagination loop of `listObjectsByPrefix`.  Each iteration issues one
backend call with the current continuation token, appends the page's objects
and common prefixes to the accumulator, and either stops (error, or
`pageFinal`) or continues with the page's `NextContinuationToken`.  `fuel`
bounds the number of calls; the result is `none` exactly when the Go loop
would still be running after `fuel` backend calls. -/
def listLoop (api : S3ListAPI) (key : String) :
    Nat → Option String → List file → Option (Except String (List file))
  | 0, _, _ => none
  | fuel + 1, token, files =>
    match api key token with
    | .error e => some (.error e)
    | .ok out =>
      let files' := files ++ pageFiles out
      if pageFinal out then some (.ok files')
      else listLoop api key fuel out.NextContinuationToken files'

/-- Model of `(*s3Client).listObjectsByPrefix`: strip one leading separator
from the request path to form the lookup prefix, then run the pagination
loop starting with no continuation token and no accumulated entries. -/
def listObjectsByPrefix (api : S3ListAPI) (fuel : Nat) (path : String) :
    Option (Except String (List file)) :=
  listLoop api (trimLeadingSlash path) fuel none []

/-- Predicate: `api` serves, for lookup key `key` and starting token `t`,
exactly the successive pages `ps`: every page but the last continues (not `pageFinal`)
with its `NextContinuationToken`, and the last page is final. -/
def servesChain (api : S3ListAPI) (key : String) :
    Option String → List ListObjectsV2Output → Prop
  | _, [] => False
  | t, [p] => api key t = .ok p ∧ pageFinal p = true
  | t, p :: q :: rest =>
    api key t = .ok p ∧ pageFinal p = false ∧
      servesChain api key p.NextContinuationToken (q :: rest)

/-- Predicate: `api` serves, for lookup key `key` and starting token `t`,
the successful non-final pages `ps` and then fails with error `e`. -/
def servesThenError (api : S3ListAPI) (key : String) (e : String) :
    Option String → List ListObjectsV2Output → Prop
  | t, [] => api key t = .error e
  | t, p :: rest =>
    api key t = .ok p ∧ pageFinal p = false ∧
      servesThenError api key e p.NextContinuationToken rest

/-- The `div`/`exp` loop of `humanizeBytes`:
`for n := b / unit; n >= unit; n /= unit { div *= unit; exp++ }`.
The first argument is fuel bounding the iteration count; the caller passes
`n + 1`, which the loop (dividing `n` by 1000 each step) can never exhaust. -/
def humLoop : Nat → Nat → Nat → Nat → Nat × Nat
  | 0, _, div, exp => (div, exp)
  | fuel + 1, n, div, exp =>
    if 1000 ≤ n then humLoop fuel (n / 1000) (div * 1000) (exp + 1) else (div, exp)

/-- The unit characters `"kMGTPE"` of `humanizeBytes`; Go indexes this string
with `exp` and would panic out of bounds, which the embedding totalizes with
a `'?'` default (proved unreachable for `int64` inputs). -/
def unitChar (exp : Nat) : Char := "kMGTPE".data.getD exp '?'

/-- Model of `fmt.Sprintf("%.2f", float64 n / float64 div)` for `div > 0`:
round `100 * n / div` to the nearest integer (ties to even) and print it with
two decimal places.  This is the exact-rational reading of the float
formatting; it agrees with the `float64` computation whenever the quotient is
exactly representable, which covers every value any theorem below evaluates. -/
def formatFixed2 (n div : Nat) : String :=
  let num := n * 100
  let q := num / div
  let r := num % div
  let rounded :=
    if div < 2 * r then q + 1
    else if 2 * r < div then q
    else if q % 2 = 0 then q else q + 1
  toString (rounded / 100) ++ "." ++
    (if rounded % 100 < 10 then "0" else "") ++ toString (rounded % 100)

/-- Model of `humanizeBytes`: byte counts below 1000 (negative ones included)
render as `"<n> B"`; otherwise the loop scales by powers of 1000 and the
result is formatted with two decimals and the unit character at index `exp`
of `"kMGTPE"`, suffixed by `B`. -/
def humanizeBytes (b : Int) : String :=
  if b < 1000 then toString b ++ " B"
  else
    let n := b.toNat
    let p := humLoop (n / 1000 + 1) (n / 1000) 1000 0
    formatFixed2 n p.1 ++ " " ++ String.singleton (unitChar p.2) ++ "B"

/-!
The sort used by `renderFileList` is Go 1.17's `sort.Slice` (the repository's
CI pins Go 1.17).  That is the pre-pdqsort introsort of Go's `sort` package:
a quicksort loop (`doPivot` three-way partitioning with median-of-three or
ninther pivot selection), falling back to heapsort at depth `2*ceil(lg(n+1))`
and, for ranges of at most 12 elements, to a single gap-6 shell pass followed
by insertion sort.  The embedding below ports that algorithm index for index.
Go slices are modelled as `List` with positional read (`lget`, Go's `v[i]`)
and swap (`lswap`, Go's `Swap(i, j)`); every index the algorithm uses is in
bounds, where the `List` operations and the Go operations agree.  Loops whose
termination argument rests on the partition invariants carry a fuel argument
chosen strictly larger than the iteration count any execution can reach.
-/

/-- Positional read `v[i]` of a Go slice (all uses are in bounds). -/
def lget [Inhabited α] (l : List α) (i : Nat) : α := l.getD i default

/-- The `Swap(i, j)` primitive of `sort.Slice` on the modelled slice (all
uses are in bounds, where `List.set` agrees with Go's element assignment). -/
def lswap [Inhabited α] (l : List α) (i j : Nat) : List α :=
  (l.set i (lget l j)).set j (lget l i)

/-- Inner loop of Go's `insertionSort`:
`for j := i; j > a && data.Less(j, j-1); j-- { data.Swap(j, j-1) }`
(structural recursion on `j`; at `j = 0` the `j > a` test is false). -/
def insSortInner [Inhabited α] (less : α → α → Bool) (a : Nat) : List α → Nat → List α
  | l, 0 => l
  | l, j + 1 =>
    if a < j + 1 ∧ less (lget l (j + 1)) (lget l j) = true then
      insSortInner less a (lswap l (j + 1) j) j
    else l

/-- Outer loop of Go's `insertionSort`: `for i := a + 1; i < b; i++`.  The
first argument is fuel; the caller passes `b`, which exceeds the number of
remaining iterations `b - i` at every call. -/
def insSortOuter [Inhabited α] (less : α → α → Bool) (a b : Nat) :
    Nat → List α → Nat → List α
  | 0, l, _ => l
  | gas + 1, l, i =>
    if i < b then insSortOuter less a b gas (insSortInner less a l i) (i + 1) else l

/-- Go's `insertionSort(data, a, b)`. -/
def insertionSortGo [Inhabited α] (less : α → α → Bool) (l : List α) (a b : Nat) :
    List α :=
  insSortOuter less a b b l (a + 1)

/-- The gap-6 shell pass `quickSort` runs before insertion sort on ranges of
at most 12 elements: `for i := a + 6; i < b; i++ { if data.Less(i, i-6) {
data.Swap(i, i-6) } }`.  The first argument is fuel; the caller passes `b`,
which exceeds the number of remaining iterations at every call. -/
def shellPassGo [Inhabited α] (less : α → α → Bool) (a b : Nat) :
    Nat → List α → Nat → List α
  | 0, l, _ => l
  | gas + 1, l, i =>
    if i < b then
      shellPassGo less a b gas
        (if less (lget l i) (lget l (i - 6)) = true then lswap l i (i - 6) else l) (i + 1)
    else l

/-- Child selection inside Go's `siftDown`: take the right child when it
exists and compares greater. -/
def siftChild [Inhabited α] (less : α → α → Bool) (hi first c0 : Nat) (l : List α) : Nat :=
  if c0 + 1 < hi ∧ less (lget l (first + c0)) (lget l (first + c0 + 1)) = true then c0 + 1
  else c0

/-- Go's `siftDown(data, lo, hi, first)` loop, with `root` the moving index. -/
def siftDownGo [Inhabited α] (less : α → α → Bool) (hi first : Nat) (l : List α)
    (root : Nat) : List α :=
  if _h : 2 * root + 1 < hi then
    let c := siftChild less hi first (2 * root + 1) l
    if less (lget l (first + root)) (lget l (first + c)) = true then
      siftDownGo less hi first (lswap l (first + root) (first + c)) c
    else l
  else l
termination_by hi - root
decreasing_by
  have hc : 2 * root + 1 ≤ siftChild less hi first (2 * root + 1) l ∧
      siftChild less hi first (2 * root + 1) l < hi := by
    unfold siftChild; split <;> omega
  omega

/-- Heap-construction loop of Go's `heapSort`:
`for i := (hi - 1) / 2; i >= 0; i--`. -/
def heapBuildGo [Inhabited α] (less : α → α → Bool) (hi first : Nat) (l : List α)
    (i : Nat) : List α :=
  let l := siftDownGo less hi first l i
  if _h : 0 < i then heapBuildGo less hi first l (i - 1) else l
termination_by i

/-- Pop loop of Go's `heapSort`:
`for i := hi - 1; i >= 0; i-- { data.Swap(first, first+i); siftDown(data, lo, i, first) }`. -/
def heapPopGo [Inhabited α] (less : α → α → Bool) (first : Nat) (l : List α) (i : Nat) :
    List α :=
  let l := siftDownGo less i first (lswap l first (first + i)) 0
  if _h : 0 < i then heapPopGo less first l (i - 1) else l
termination_by i

/-- Go's `heapSort(data, a, b)`.  (It is only invoked by `quickSort` with
`b - a > 12`, so the degenerate `b = a` guard is unreachable.) -/
def heapSortGo [Inhabited α] (less : α → α → Bool) (l : List α) (a b : Nat) : List α :=
  let hi := b - a
  if hi = 0 then l
  else heapPopGo less a (heapBuildGo less hi a l ((hi - 1) / 2)) (hi - 1)

/-- Go's `medianOfThree(data, m1, m0, m2)`: moves the median of the three
elements into position `m1`. -/
def medianOfThreeGo [Inhabited α] (less : α → α → Bool) (l : List α) (m1 m0 m2 : Nat) :
    List α :=
  let l := if less (lget l m1) (lget l m0) = true then lswap l m1 m0 else l
  if less (lget l m2) (lget l m1) = true then
    let l2 := lswap l m2 m1
    if less (lget l2 m1) (lget l2 m0) = true then lswap l2 m1 m0 else l2
  else l

/-- First scan of `doPivot`: `for ; a < c && data.Less(a, pivot); a++`. -/
def dpScanA [Inhabited α] (less : α → α → Bool) (pivot c : Nat) (l : List α) (a : Nat) :
    Nat :=
  if h : a < c ∧ less (lget l a) (lget l pivot) = true then dpScanA less pivot c l (a + 1)
  else a
termination_by c - a
decreasing_by obtain ⟨h1, _⟩ := h; omega

/-- Forward scan inside `doPivot`'s partition loop:
`for ; b < c && !data.Less(pivot, b); b++`. -/
def dpScanB [Inhabited α] (less : α → α → Bool) (pivot c : Nat) (l : List α) (b : Nat) :
    Nat :=
  if h : b < c ∧ less (lget l pivot) (lget l b) = false then dpScanB less pivot c l (b + 1)
  else b
termination_by c - b
decreasing_by obtain ⟨h1, _⟩ := h; omega

/-- Backward scan inside `doPivot`'s partition loop:
`for ; b < c && data.Less(pivot, c-1); c--`. -/
def dpScanC [Inhabited α] (less : α → α → Bool) (pivot b : Nat) (l : List α) (c : Nat) :
    Nat :=
  if h : b < c ∧ less (lget l pivot) (lget l (c - 1)) = true then dpScanC less pivot b l (c - 1)
  else c
termination_by c
decreasing_by obtain ⟨h1, _⟩ := h; omega

/-- Main partition loop of `doPivot`.  Each iteration strictly shrinks
`c - b`, so a fuel strictly larger than the initial `c - b` (the caller
passes `hi + 1`) can never run out. -/
def dpMidLoop [Inhabited α] (less : α → α → Bool) (pivot : Nat) :
    Nat → List α → Nat → Nat → List α × Nat × Nat
  | 0, l, b, c => (l, b, c)
  | fuel + 1, l, b, c =>
    let b' := dpScanB less pivot c l b
    let c' := dpScanC less pivot b' l c
    if b' ≥ c' then (l, b', c')
    else dpMidLoop less pivot fuel (lswap l b' (c' - 1)) (b' + 1) (c' - 1)

/-- Backward scan of `doPivot`'s duplicate-protection loop:
`for ; a < b && !data.Less(b-1, pivot); b--`. -/
def dpProtB [Inhabited α] (less : α → α → Bool) (pivot a : Nat) (l : List α) (b : Nat) :
    Nat :=
  if h : a < b ∧ less (lget l (b - 1)) (lget l pivot) = false then dpProtB less pivot a l (b - 1)
  else b
termination_by b
decreasing_by obtain ⟨h1, _⟩ := h; omega

/-- Forward scan of `doPivot`'s duplicate-protection loop:
`for ; a < b && data.Less(a, pivot); a++`. -/
def dpProtA [Inhabited α] (less : α → α → Bool) (pivot b : Nat) (l : List α) (a : Nat) :
    Nat :=
  if h : a < b ∧ less (lget l a) (lget l pivot) = true then dpProtA less pivot b l (a + 1)
  else a
termination_by b - a
decreasing_by obtain ⟨h1, _⟩ := h; omega

/-- Duplicate-protection loop of `doPivot`; as in `dpMidLoop`, the fuel
`hi + 1` passed by the caller strictly exceeds any reachable iteration
count. -/
def dpProtLoop [Inhabited α] (less : α → α → Bool) (pivot : Nat) :
    Nat → List α → Nat → Nat → List α × Nat × Nat
  | 0, l, a, b => (l, a, b)
  | fuel + 1, l, a, b =>
    let b' := dpProtB less pivot a l b
    let a' := dpProtA less pivot b' l a
    if a' ≥ b' then (l, a', b')
    else dpProtLoop less pivot fuel (lswap l a' (b' - 1)) (a' + 1) (b' - 1)

/-- Go's `doPivot(data, lo, hi)`, returning the permuted slice and the pair
`(midlo, midhi)`.  All subtractions are on indices the source keeps
non-negative, where `Nat` and Go `int` subtraction agree, and
`int(uint(lo+hi) >> 1)` is exactly `(lo + hi) / 2` at these magnitudes. -/
def doPivotGo [Inhabited α] (less : α → α → Bool) (l0 : List α) (lo hi : Nat) :
    List α × Nat × Nat :=
  let m := (lo + hi) / 2
  let l := if hi - lo > 40 then
      let s := (hi - lo) / 8
      let l := medianOfThreeGo less l0 lo (lo + s) (lo + 2 * s)
      let l := medianOfThreeGo less l m (m - s) (m + s)
      medianOfThreeGo less l (hi - 1) (hi - 1 - s) (hi - 1 - 2 * s)
    else l0
  let l := medianOfThreeGo less l lo m (hi - 1)
  let pivot := lo
  let a := dpScanA less pivot (hi - 1) l (lo + 1)
  let mid := dpMidLoop less pivot (hi + 1) l a (hi - 1)
  let l := mid.1
  let b := mid.2.1
  let c := mid.2.2
  let protect0 := hi - c < 5
  let afterDups :=
    if ¬ protect0 ∧ hi - c < (hi - lo) / 4 then
      let st1 :=
        if less (lget l pivot) (lget l (hi - 1)) = false then
          (lswap l c (hi - 1), c + 1, 1)
        else (l, c, 0)
      let st2 :=
        if less (lget st1.1 (b - 1)) (lget st1.1 pivot) = false then (b - 1, st1.2.2 + 1)
        else (b, st1.2.2)
      let st3 :=
        if less (lget st1.1 m) (lget st1.1 pivot) = false then
          (lswap st1.1 m (st2.1 - 1), st2.1 - 1, st2.2 + 1)
        else (st1.1, st2.1, st2.2)
      (st3.1, st3.2.1, st1.2.1, decide (st3.2.2 > 1))
    else (l, b, c, decide protect0)
  let l := afterDups.1
  let b := afterDups.2.1
  let c := afterDups.2.2.1
  let protRes :=
    if afterDups.2.2.2 = true then dpProtLoop less pivot (hi + 1) l a b
    else (l, a, b)
  let l := protRes.1
  let b2 := protRes.2.2
  (lswap l pivot (b2 - 1), b2 - 1, c)

/-- Go's `maxDepth` loop: `for i := n; i > 0; i >>= 1 { depth++ }`.  The
first argument is fuel; `maxDepthGo` passes `n + 1`, which the halving loop
can never exhaust. -/
def maxDepthLoop : Nat → Nat → Nat → Nat
  | 0, _, depth => depth
  | fuel + 1, i, depth =>
    if 0 < i then maxDepthLoop fuel (i / 2) (depth + 1) else depth

/-- Go's `maxDepth(n)`: `2 *` the number of halvings of `n` down to 0. -/
def maxDepthGo (n : Nat) : Nat := 2 * maxDepthLoop (n + 1) n 0

/-- Go's `quickSort(data, a, b, maxDepth)`.  The `for b-a > 12` loop is
rendered as recursion; each iteration strictly shrinks `b - a`, so the fuel
(the caller passes the slice length plus one) can never run out.  Ranges of
at most 12 elements take the gap-6 shell pass followed by insertion sort. -/
def quickSortGo [Inhabited α] (less : α → α → Bool) :
    Nat → List α → Nat → Nat → Nat → List α
  | 0, l, _, _, _ => l
  | fuel + 1, l, a, b, maxd =>
    if b - a > 12 then
      if maxd = 0 then heapSortGo less l a b
      else
        let p := doPivotGo less l a b
        let mlo := p.2.1
        let mhi := p.2.2
        if mlo - a < b - mhi then
          quickSortGo less fuel (quickSortGo less fuel p.1 a mlo (maxd - 1)) mhi b (maxd - 1)
        else
          quickSortGo less fuel (quickSortGo less fuel p.1 mhi b (maxd - 1)) a mlo (maxd - 1)
    else if b - a > 1 then insertionSortGo less (shellPassGo less a b b l (a + 6)) a b
    else l

/-- Go string comparison `s < t`: lexicographic on bytes, which on valid
UTF-8 coincides with lexicographic comparison of the code-point sequences. -/
def goLessChars : List Char → List Char → Bool
  | _, [] => false
  | [], _ :: _ => true
  | a :: as, b :: bs => if a < b then true else if b < a then false else goLessChars as bs

/-- The comparator of `renderFileList`'s `sort.Slice` call:
`list[i].name < list[j].name`. -/
def fileLess (x y : file) : Bool := goLessChars x.name.data y.name.data

/-- Model of
`sort.Slice(list, func(i, j int) bool \x7b return list[i].name < list[j].name \x7d)`
as called by `renderFileList`: Go 1.17 `sort.Slice` runs `quickSort` over the
whole slice with depth budget `maxDepth(len)`. -/
def sortSliceFiles (l : List file) : List file :=
  quickSortGo fileLess (l.length + 1) l 0 l.length (maxDepthGo l.length)

/-!
The HTTP response model.  A `net/http` `ResponseWriter` commits its status
code and header snapshot at the first `WriteHeader` call; a body `Write`
before any `WriteHeader` commits status 200 implicitly (inside the response
machinery, not through the handler-visible `WriteHeader` method); any
`WriteHeader` after the commit changes nothing on the wire.  The ghost field
`headerCalls` records every code passed to the handler-visible `WriteHeader`
method, which is exactly what the logging wrapper's overwritten `StatusCode`
field observes.
-/

/-- Set a key in an association list of headers (model of `Header().Set`). -/
def setAssoc : List (String × String) → String → String → List (String × String)
  | [], k, v => [(k, v)]
  | (k', v') :: rest, k, v =>
    if k' = k then (k, v) :: rest else (k', v') :: setAssoc rest k v

/-- Look a key up in an association list of headers. -/
def getAssoc : List (String × String) → String → Option String
  | [], _ => none
  | (k', v') :: rest, k => if k' = k then some v' else getAssoc rest k

/-- The state of one HTTP response.  `pending` is the mutable header map;
`committedStatus`/`committedHeaders` are what went out on the wire (set at
the first commit and immutable after); `body` is the bytes written;
`headerCalls` is the ghost trace of explicit `WriteHeader` calls. -/
structure RespW where
  pending : List (String × String) := []
  committedStatus : Option Nat := none
  committedHeaders : List (String × String) := []
  body : String := ""
  headerCalls : List Nat := []
deriving DecidableEq, Repr

/-- The response state before the handler runs. -/
def emptyResp : RespW := {}

/-- Internal commit: the first commit fixes the wire status and the header
snapshot; later ones are ignored (net/http logs them as superfluous). -/
def respCommit (w : RespW) (code : Nat) : RespW :=
  if w.committedStatus.isSome then w
  else { w with committedStatus := some code, committedHeaders := w.pending }

/-- The handler-visible `WriteHeader`: records the code in the ghost trace
and commits (a no-op on the wire if something was already written). -/
def respWriteHeader (w : RespW) (code : Nat) : RespW :=
  respCommit { w with headerCalls := w.headerCalls ++ [code] } code

/-- The handler-visible `Write`: commits status 200 implicitly if nothing
was committed yet (without going through `WriteHeader`), then appends. -/
def respWrite (w : RespW) (s : String) : RespW :=
  let w := respCommit w 200
  { w with body := w.body ++ s }

/-- Model of `Header().Set(k, v)` as used by the program. -/
def respSetHeader (w : RespW) (k v : String) : RespW :=
  { w with pending := setAssoc w.pending k v }

/-- Model of `http.Error(w, msg, code)`: set the plain-text headers, write
the header, print the message followed by a newline. -/
def httpError (w : RespW) (msg : String) (code : Nat) : RespW :=
  let w := respSetHeader w "Content-Type" "text/plain; charset=utf-8"
  let w := respSetHeader w "X-Content-Type-Options" "nosniff"
  let w := respWriteHeader w code
  respWrite w (msg ++ "\n")

/-- The HTML escaper of `net/http` (`htmlEscape`): `&`, `'`, `<`, `>`, `"`
become entities. -/
def htmlEscapeChar (c : Char) : String :=
  if c = '&' then "&amp;"
  else if c = Char.ofNat 39 then "&#39;"
  else if c = '<' then "&lt;"
  else if c = '>' then "&gt;"
  else if c = '"' then "&#34;"
  else String.singleton c

/-- Application of `htmlEscapeChar` over a whole string. -/
def htmlEscape (s : String) : String := String.join (s.data.map htmlEscapeChar)

/-- Hexadecimal digit characters used by `hexEscapeNonASCII`. -/
def hexDigit (n : Nat) : Char := "0123456789ABCDEF".data.getD n '0'

/-- UTF-8 byte encoding of one character. -/
def utf8Bytes (c : Char) : List Nat :=
  let n := c.toNat
  if n < 128 then [n]
  else if n < 2048 then [192 + n / 64, 128 + n % 64]
  else if n < 65536 then [224 + n / 4096, 128 + (n / 64) % 64, 128 + n % 64]
  else [240 + n / 262144, 128 + (n / 4096) % 64, 128 + (n / 64) % 64, 128 + n % 64]

/-- Model of the `hexEscapeNonASCII` helper of `net/http`, applied to the
`Location` value:
ASCII characters pass through, every byte at or above 0x80 is
percent-encoded. -/
def hexEscapeNonASCII (s : String) : String :=
  ⟨(s.data.map fun c =>
    if c.toNat < 128 then [c]
    else ((utf8Bytes c).map fun b => ['%', hexDigit (b / 16), hexDigit (b % 16)]).flatten).flatten⟩

/-- Model of `http.StatusText` for the codes this program issues. -/
def statusText (code : Nat) : String :=
  if code = 308 then "Permanent Redirect"
  else if code = 500 then "Internal Server Error"
  else ""

/-- Model of `http.Redirect(w, r, url, code)` for a GET request whose target
starts with a separator or a scheme (the only targets this program passes,
so `net/http`'s relative-path resolution does not rewrite it): set
`Location` (non-ASCII hex-escaped), default the content type to HTML when
the handler has not set one, write the header and the hyperlink body. -/
def httpRedirect (w : RespW) (url : String) (code : Nat) : RespW :=
  let hadCT := (getAssoc w.pending "Content-Type").isSome
  let w := respSetHeader w "Location" (hexEscapeNonASCII url)
  let w := if hadCT then w else respSetHeader w "Content-Type" "text/html; charset=utf-8"
  let w := respWriteHeader w code
  if hadCT then w
  else respWrite w ("<a href=\"" ++ htmlEscape url ++ "\">" ++ statusText code ++ "</a>.\n\n")

/-- Go's `time.Minute` in nanoseconds. -/
def timeMinute : Nat := 60000000000

/-- The abstract presigning capability behind `(*s3Client).getPreSignedLink`:
`GetObjectRequest` + `Presign(duration)` for a key, yielding a URL or an
error. -/
def PresignAPI : Type := String → Nat → Except String String

/-- Model of `(*s3Client).getPreSignedLink(key, duration)`: the key is passed
to the backend exactly as received (no separator stripping happens here). -/
def getPreSignedLink (presign : PresignAPI) (key : String) (duration : Nat) :
    Except String String :=
  presign key duration

/-!
The `text/tabwriter` layout, for `NewWriter(buf, 0, 0, 1, ' ', 0)`
(minwidth 0, tabwidth 0, padding 1, space padding, no flags).  Input text is
broken into newline-terminated lines of tab-separated cells; the last cell of
each line is not part of an aligned column.  `format` walks the lines at a
given column index: lines without that column are written with the widths
computed so far, and each maximal run of lines having the column becomes a
block whose width is `padding` plus the widest cell, processed recursively at
the next column.
-/

/-- Pad with spaces to `width` (model of `writePadding` with `padding`
already folded into `width`). -/
def tabPad (cell : String) (width : Nat) : String :=
  cell ++ String.mk (List.replicate (width - cell.length) ' ')

/-- Write one line: every cell but the last padded to its column width, the
last cell verbatim. -/
def tabWriteLine (widths : List Nat) (cells : List String) : String :=
  match cells with
  | [] => ""
  | [c] => c
  | c :: rest => tabPad c (widths.headD 0) ++ tabWriteLine widths.tail rest

/-- Write a run of lines with the current column widths, each followed by a
newline. -/
def tabWriteLines (widths : List Nat) (lines : List (List String)) : String :=
  String.join (lines.map fun ln => tabWriteLine widths ln ++ "\n")

/-- The recursion of `tabwriter`'s `format`.  The fuel strictly exceeds the
recursion depth any input can reach (each step either consumes a column or
strictly shrinks the line list), so the fuel-exhausted branch is
unreachable. -/
def tabFormatRec : Nat → List Nat → List (List String) → String
  | 0, widths, lines => tabWriteLines widths lines
  | fuel + 1, widths, lines =>
    match lines with
    | [] => ""
    | _ =>
      let col := widths.length
      let pre := lines.takeWhile fun ln => ln.length ≤ col + 1
      let rest := lines.dropWhile fun ln => ln.length ≤ col + 1
      match rest with
      | [] => tabWriteLines widths pre
      | _ =>
        let block := rest.takeWhile fun ln => col + 1 < ln.length
        let rest2 := rest.dropWhile fun ln => col + 1 < ln.length
        let width := (block.map fun ln => (ln.getD col "").length + 1).foldl max 0
        tabWriteLines widths pre ++ tabFormatRec fuel (widths ++ [width]) block ++
          tabFormatRec fuel widths rest2

/-- Model of the `tabwriter` flush of the buffered `text`: split into
newline-terminated
lines of tab-separated cells and format them. -/
def tabFormat (text : String) : String :=
  let lines := ((splitOnChar '\n' text.data).dropLast).map fun ln =>
    (splitOnChar '\t' ln).map fun c => (⟨c⟩ : String)
  let mc := (lines.map List.length).foldl max 0
  tabFormatRec (lines.length + mc + 1) [] lines

/-- Model of `strings.Index`: position of the first occurrence of `pat` (an
empty
pattern matches at position 0). -/
def findSubIdx : List Char → List Char → Option Nat
  | s, pat =>
    match s with
    | [] => if pat = [] then some 0 else none
    | _ :: rest =>
      if pat.isPrefixOf s then some 0 else (findSubIdx rest pat).map (· + 1)

/-- Model of `strings.Replace(s, old, new, 1)`: replace the first occurrence
of `old`
(insert at the start when `old` is empty), or return `s` unchanged when
`old` does not occur. -/
def replaceFirst (s old new : String) : String :=
  match findSubIdx s.data old.data with
  | none => s
  | some i => ⟨s.data.take i ++ new.data ++ s.data.drop (i + old.data.length)⟩

/-- One row of the buffered entry table: directories print
`"%s\t\t\t\n"` with the name only, objects print
`"%s\t%s\t%s\n"` with name, RFC3339 timestamp and humanized size. -/
def rowString (f : file) : String :=
  if f.isDir then f.name ++ "\t\t\t\n"
  else f.name ++ "\t" ++ f.lastModified.format ++ "\t" ++ humanizeBytes f.size ++ "\n"

/-- The link-substitution loop of `renderFileList`: for each entry in sorted
order, compute its link (`"/" + name` for directories, a fresh presigned URL
for objects — aborting the whole render on a presign error), then replace the
first textual occurrence of the entry's name in the table with an anchor. -/
def renderLoop (presign : PresignAPI) : List file → String → Except String String
  | [], content => .ok content
  | f :: rest, content =>
    let linkRes : Except String String :=
      if f.isDir then .ok ("/" ++ f.name)
      else getPreSignedLink presign f.name (5 * timeMinute)
    match linkRes with
    | .error e => .error ("error getting presigned link for " ++ f.name ++ ": " ++ e)
    | .ok link =>
      renderLoop presign rest
        (replaceFirst content f.name ("<a href=\"" ++ link ++ "\">" ++ f.name ++ "</a>"))

/-- Predicate: the link-substitution loop fails at this entry — it is an
object (not a directory) and presigning its key returns an error.  The first
entry of the sorted listing satisfying this is where `renderFileList`'s loop
aborts. -/
def presignFails (presign : PresignAPI) (f : file) : Bool :=
  !f.isDir &&
    match presign f.name (5 * timeMinute) with
    | .error _ => true
    | .ok _ => false

/-- The characters of `s[:strings.LastIndex(s, "/")]`: everything before the
last separator.  When `s` has no separator Go would panic on the negative
index; `renderFileList` only reaches this with a `"/"`-suffixed non-root
path, so that case is unreachable (the embedding returns the empty list). -/
def charsBeforeLastSlash (l : List Char) : List Char :=
  ((l.reverse.dropWhile fun c => c ≠ '/').drop 1).reverse

/-- Model of `r.URL.Path[:strings.LastIndex(r.URL.Path, "/")]` on strings. -/
def takeBeforeLastSlash (s : String) : String := ⟨charsBeforeLastSlash s.data⟩

/-- The href of the rendered "up one level" anchor: the path truncated at its
last separator, with `"/.."` appended. -/
def upHref (path : String) : String := takeBeforeLastSlash path ++ "/.."

/-- The portion of the page between the path header and the entry table: the
single up-link anchor for non-root paths, nothing for the root. -/
def upSection (path : String) : String :=
  if path = "/" then "" else "<a href=\"" ++ upHref path ++ "\">..</a>\n"

/-- The page text written before the fallible link-substitution loop: the
`<pre>` opener, the request path, and the up-link section. -/
def preambleBody (path : String) : String :=
  "<pre>\n" ++ path ++ "\n\n" ++ upSection path

/-- Model of `(*s3Client).renderFileList(w, r, list)`: sort the entries by
name, set the HTML content type, write the preamble directly to `w`, lay the
rows out through `tabwriter` into a buffer, run the link-substitution loop
over the buffered table, and only on success write the table and the closing
tag; on a presign failure return the error with nothing but the preamble
written. -/
def renderFileList (presign : PresignAPI) (w : RespW) (path : String) (list : List file) :
    RespW × Option String :=
  let sorted := sortSliceFiles list
  let w := respSetHeader w "Content-Type" "text/html; charset=utf-8"
  let w := respWrite w "<pre>\n"
  let w := respWrite w (path ++ "\n\n")
  let w := if path = "/" then w
    else respWrite w ("<a href=\"" ++ takeBeforeLastSlash path ++ "/..\">..</a>\n")
  let content := tabFormat (String.join (sorted.map rowString))
  match renderLoop presign sorted content with
  | .error e => (w, some e)
  | .ok content' => (respWrite w (content' ++ "\n</pre>\n"), none)

/-- Model of the handler returned by `buildHandler`, for a GET request with
path `path`.  Directory mode (trailing separator): list, then render, with
`http.Error 500` on either failure.  Object mode: presign the raw path with
a five-minute validity and issue a 308 redirect, or `http.Error 500`.  The
result is `none` only when the pagination fuel runs out. -/
def buildHandler (api : S3ListAPI) (presign : PresignAPI) (fuel : Nat) (path : String)
    (w : RespW) : Option RespW :=
  if endsWithSlash path then
    match listObjectsByPrefix api fuel path with
    | none => none
    | some (.error e) => some (httpError w e 500)
    | some (.ok list) =>
      match renderFileList presign w path list with
      | (w', none) => some w'
      | (w', some e) => some (httpError w' e 500)
  else
    match getPreSignedLink presign path (5 * timeMinute) with
    | .error e => some (httpError w e 500)
    | .ok link => some (httpRedirect w link 308)

/-!
The logging wrapper (`responseWriter` / `withLogging`).  A handler's
interaction with its `ResponseWriter` is abstracted as a list of actions;
`runInner` executes them directly against a fresh response, `runWrapped`
executes them through the wrapper, which delegates every action unchanged and
additionally overwrites its `StatusCode` field (initialized to 200) on each
`WriteHeader` call.
-/

/-- One action a handler performs on its `ResponseWriter`. -/
inductive HAction where
  | write (s : String)
  | writeHeader (code : Nat)
  | setHeader (k v : String)
deriving DecidableEq, Repr

/-- Direct execution of one action against the response. -/
def innerStep (w : RespW) : HAction → RespW
  | .write s => respWrite w s
  | .writeHeader c => respWriteHeader w c
  | .setHeader k v => respSetHeader w k v

/-- Execute a handler's actions directly against a fresh response. -/
def runInner (acts : List HAction) : RespW := acts.foldl innerStep emptyResp

/-- One step through the wrapper: delegate, and on `WriteHeader` also record
the code (last write wins, as in the source's `w.StatusCode = code`). -/
def wrapStep : RespW × Nat → HAction → RespW × Nat
  | (w, _), .writeHeader c => (respWriteHeader w c, c)
  | (w, sc), .write s => (respWrite w s, sc)
  | (w, sc), .setHeader k v => (respSetHeader w k v, sc)

/-- Execute a handler's actions through the logging wrapper, starting from
`StatusCode = http.StatusOK`; the second component is what the wrapper logs
as the status. -/
def runWrapped (acts : List HAction) : RespW × Nat :=
  acts.foldl wrapStep (emptyResp, 200)

/-- The codes a handler passes to `WriteHeader`, in order. -/
def explicitCodes (acts : List HAction) : List Nat :=
  acts.filterMap fun a =>
    match a with
    | .writeHeader c => some c
    | _ => none

/-- The status the wrapper logs, read off the ghost trace of the direct
model: the last `WriteHeader` code, or 200 if there was none. -/
def loggedStatus (w : RespW) : Nat := w.headerCalls.foldl (fun _ c => c) 200

/-!
Resolution of the up-link href.  The emitted href is
`<path minus trailing separator>/..`; a client resolves the trailing dot-dot
segment per RFC 3986 `remove_dot_segments`.  `splitSlash` splits a path into
its `/`-separated segments, `removeDotSegments` folds `.` and `..` segments
away (a trailing dot segment leaves a trailing empty segment, i.e. a
directory path), and `resolveAbsPath` applies this to an absolute path.
-/

/-- Split a character list into its `'/'`-separated segments (always at
least one segment; an absolute path yields a leading empty segment). -/
def splitSlash (l : List Char) : List (List Char) := splitOnChar '/' l

/-- RFC 3986 `remove_dot_segments` on a segment list: `..` pops the last
output segment, `.` disappears, and a trailing dot segment leaves a trailing
empty segment (the result is a directory path). -/
def removeDotSegments : List (List Char) → List (List Char) → List (List Char)
  | out, [] => out
  | out, [seg] =>
    if seg = ['.', '.'] then out.dropLast ++ [[]]
    else if seg = ['.'] then out ++ [[]]
    else out ++ [seg]
  | out, seg :: rest =>
    if seg = ['.', '.'] then removeDotSegments out.dropLast rest
    else if seg = ['.'] then removeDotSegments out rest
    else removeDotSegments (out ++ [seg]) rest

/-- Resolve an absolute path's dot segments: drop the leading empty segment
and fold; the result is the segment list of the resolved path. -/
def resolveAbsPath (l : List Char) : List (List Char) :=
  removeDotSegments [] (splitSlash l).tail

/-- The character list of the directory path `/s1/s2/.../sn/` built from the
segments `segs`. -/
def joinDirSegs (segs : List (List Char)) : List Char :=
  '/' :: (segs.map fun s => s ++ ['/']).flatten

/-- Well-formed directory-path segments: at least one segment, every segment
nonempty, separator-free and not a dot segment. -/
def wellFormedSegs (segs : List (List Char)) : Prop :=
  segs ≠ [] ∧ ∀ s ∈ segs, s ≠ [] ∧ '/' ∉ s ∧ s ≠ ['.'] ∧ s ≠ ['.', '.']

/-- Whether every character of `s` is ASCII (on such strings
`hexEscapeNonASCII` is the identity). -/
def stringIsASCII (s : String) : Bool := s.data.all fun c => c.toNat < 128

/-!
Reference model for the insertion-sort leaf of the Go sort: stable insertion
into the end-aligned position (scanning from the right, an inserted element
stops at the first element it is not strictly less than), exactly the motion
of the swap-based inner loop of `insertionSort`.
-/

/-- The pagination loop aggregates a full successful chain of pages into the
concatenation of their entries, regardless of what was accumulated before. -/
theorem listLoop_chain (api : S3ListAPI) (key : String) :
    ∀ (ps : List ListObjectsV2Output) (t : Option String) (acc : List file) (fuel : Nat),
      servesChain api key t ps → ps.length ≤ fuel →
      listLoop api key fuel t acc = some (.ok (acc ++ (ps.map pageFiles).flatten)) := by
  intro ps
  induction ps with
  | nil => intro t acc fuel h; exact absurd h (by simp [servesChain])
  | cons p rest ih =>
    intro t acc fuel h hfuel
    match rest, fuel with
    | [], fuel + 1 =>
      obtain ⟨hapi, hfin⟩ := h
      simp [listLoop, hapi, hfin]
    | q :: rest', fuel + 1 =>
      obtain ⟨hapi, hfin, hchain⟩ := h
      simp only [listLoop, hapi]
      rw [if_neg (by simp [hfin])]
      rw [ih p.NextContinuationToken (acc ++ pageFiles p) fuel hchain (by simpa using hfuel)]
      simp

/-- A successful non-final prefix of pages followed by a failing call makes
the whole loop fail with that error, discarding everything accumulated. -/
theorem listLoop_thenError (api : S3ListAPI) (key : String) (e : String) :
    ∀ (ps : List ListObjectsV2Output) (t : Option String) (acc : List file) (fuel : Nat),
      servesThenError api key e t ps → ps.length < fuel →
      listLoop api key fuel t acc = some (.error e) := by
  intro ps
  induction ps with
  | nil =>
    intro t acc fuel h hfuel
    simp only [servesThenError] at h
    match fuel with
    | fuel + 1 => simp [listLoop, h]
  | cons p rest ih =>
    intro t acc fuel h hfuel
    match fuel with
    | fuel + 1 =>
      obtain ⟨hapi, hfin, hrest⟩ := h
      simp only [listLoop, hapi]
      rw [if_neg (by simp [hfin])]
      exact ih p.NextContinuationToken (acc ++ pageFiles p) fuel hrest (by simpa using hfuel)

theorem string_nil_append (s : String) : "" ++ s = s := rfl

/-- C1: for every request path and every finite chain of backend listing
pages served along the continuation tokens, `listObjectsByPrefix` returns the
concatenation of all pages' objects (as non-directory entries carrying key,
size and last-modified) and common prefixes (as directory entries), following
the tokens until the backend reports no more pages, with no entries added or
dropped; the lookup prefix sent to the backend is the request path with its
leading separator stripped (the `servesChain` hypothesis speaks only about
the backend's answers at `trimLeadingSlash path`). -/
theorem c1_listObjectsByPrefix_aggregates_pages
    (api : S3ListAPI) (path : String) (ps : List ListObjectsV2Output) (fuel : Nat)
    (hchain : servesChain api (trimLeadingSlash path) none ps)
    (hfuel : ps.length ≤ fuel) :
    listObjectsByPrefix api fuel path = some (.ok (ps.map pageFiles).flatten) := by
  unfold listObjectsByPrefix
  rw [listLoop_chain api _ ps none [] fuel hchain hfuel]
  simp

/-- Witness for C1 at a concrete two-page backend. -/
theorem c1_witness :
    listObjectsByPrefix
      (fun key tok =>
        if key = "p/" ∧ tok = none then
          .ok { Contents := [{ Key := some "p/x", Size := some 2048,
                               LastModified := some ⟨"2020-01-02T03:04:05Z"⟩ }],
                CommonPrefixes := [{ Prefix := some "p/d/" }],
                IsTruncated := some true, NextContinuationToken := some "t1" }
        else if key = "p/" ∧ tok = some "t1" then
          .ok { Contents := [{ Key := some "p/y", Size := some 5, LastModified := none }],
                CommonPrefixes := [], IsTruncated := some false, NextContinuationToken := none }
        else .error "unexpected")
      2 "/p/" =
    some (.ok ([{ name := "p/x", isDir := false, size := 2048,
                  lastModified := ⟨"2020-01-02T03:04:05Z"⟩ },
                { name := "p/d/", isDir := true, size := 0, lastModified := goZeroTime },
                { name := "p/y", isDir := false, size := 5, lastModified := goZeroTime }] :
      List file)) := by
  rw [c1_listObjectsByPrefix_aggregates_pages _ _
    [{ Contents := [{ Key := some "p/x", Size := some 2048,
                      LastModified := some ⟨"2020-01-02T03:04:05Z"⟩ }],
       CommonPrefixes := [{ Prefix := some "p/d/" }],
       IsTruncated := some true, NextContinuationToken := some "t1" },
     { Contents := [{ Key := some "p/y", Size := some 5, LastModified := none }],
       CommonPrefixes := [], IsTruncated := some false, NextContinuationToken := none }] 2
    (by refine ⟨rfl, rfl, rfl, rfl⟩) (by decide)]
  rfl

/-- C2: when a page request fails after a chain of successful non-final
pages, `listObjectsByPrefix` returns exactly that error (the accumulated
entries are discarded, and the minimal fuel hypothesis shows no further
pages are requested), and the dispatcher answers HTTP 500 with the error
text as plain-text body. -/
theorem c2_listing_error_yields_500_and_discards
    (api : S3ListAPI) (presign : PresignAPI) (path e : String)
    (ps : List ListObjectsV2Output) (fuel : Nat)
    (hdir : endsWithSlash path = true)
    (hserve : servesThenError api (trimLeadingSlash path) e none ps)
    (hfuel : ps.length < fuel) :
    listObjectsByPrefix api fuel path = some (.error e) ∧
    buildHandler api presign fuel path emptyResp = some (httpError emptyResp e 500) ∧
    (httpError emptyResp e 500).committedStatus = some 500 ∧
    (httpError emptyResp e 500).body = e ++ "\n" ∧
    getAssoc (httpError emptyResp e 500).committedHeaders "Content-Type" =
      some "text/plain; charset=utf-8" := by
  have hlist : listObjectsByPrefix api fuel path = some (.error e) := by
    unfold listObjectsByPrefix
    exact listLoop_thenError api _ e ps none [] fuel hserve hfuel
  refine ⟨hlist, ?_, ?_, ?_, ?_⟩
  · unfold buildHandler
    rw [if_pos hdir, hlist]
  · rfl
  · simp [httpError, respWrite, respCommit, respWriteHeader, respSetHeader, emptyResp,
      string_nil_append]
  · rfl

/-- Witness for C2: page 1 succeeds (truncated), page 2 fails. -/
theorem c2_witness :
    listObjectsByPrefix
      (fun key tok =>
        if key = "p/" ∧ tok = none then
          .ok { Contents := [{ Key := some "p/x", Size := some 1, LastModified := none }],
                CommonPrefixes := [], IsTruncated := some true,
                NextContinuationToken := some "t1" }
        else .error "io fail")
      2 "/p/" = some (.error "io fail") ∧
    (buildHandler
        (fun key tok =>
          if key = "p/" ∧ tok = none then
            .ok { Contents := [{ Key := some "p/x", Size := some 1, LastModified := none }],
                  CommonPrefixes := [], IsTruncated := some true,
                  NextContinuationToken := some "t1" }
          else .error "io fail")
        (fun _ _ => .ok "unused") 2 "/p/" emptyResp).map
      (fun r => (r.committedStatus, r.body)) = some (some 500, "io fail" ++ "\n") := by
  have h := c2_listing_error_yields_500_and_discards
    (fun key tok =>
      if key = "p/" ∧ tok = none then
        .ok { Contents := [{ Key := some "p/x", Size := some 1, LastModified := none }],
              CommonPrefixes := [], IsTruncated := some true,
              NextContinuationToken := some "t1" }
      else .error "io fail")
    (fun _ _ => .ok "unused") "/p/" "io fail"
    [{ Contents := [{ Key := some "p/x", Size := some 1, LastModified := none }],
       CommonPrefixes := [], IsTruncated := some true, NextContinuationToken := some "t1" }]
    2 (by decide) (by exact ⟨rfl, rfl, rfl⟩) (by decide)
  refine ⟨h.1, ?_⟩
  rw [h.2.1]
  rfl

/-- C10: a page whose continuation token is absent is final regardless of
its `IsTruncated` flag, so a backend answering with a truncated page carrying
no token ends the pagination loop after that single call, returning the
entries gathered so far; and for every backend serving a finite chain ending
in a final page the loop terminates with a result within fuel equal to the
chain length. -/
theorem c10_pagination_terminates :
    (∀ out : ListObjectsV2Output, out.NextContinuationToken = none → pageFinal out = true) ∧
    (∀ (api : S3ListAPI) (path : String) (p : ListObjectsV2Output) (fuel : Nat),
      api (trimLeadingSlash path) none = .ok p → p.NextContinuationToken = none →
      listObjectsByPrefix api (fuel + 1) path = some (.ok (pageFiles p))) ∧
    (∀ (api : S3ListAPI) (path : String) (ps : List ListObjectsV2Output) (fuel : Nat),
      servesChain api (trimLeadingSlash path) none ps → ps.length ≤ fuel →
      ∃ r, listObjectsByPrefix api fuel path = some r) := by
  refine ⟨?_, ?_, ?_⟩
  · intro out h
    simp [pageFinal, h]
  · intro api path p fuel hapi htok
    unfold listObjectsByPrefix listLoop
    rw [hapi]
    simp [pageFinal, htok, string_nil_append]
  · intro api path ps fuel hchain hfuel
    refine ⟨.ok ((ps.map pageFiles).flatten), ?_⟩
    unfold listObjectsByPrefix
    rw [listLoop_chain api _ ps none [] fuel hchain hfuel]
    simp

/-- Witness for C10: a single page with `IsTruncated = true` and no
continuation token ends the loop at once. -/
theorem c10_witness :
    listObjectsByPrefix
      (fun key tok =>
        if key = "q/" ∧ tok = none then
          .ok { Contents := [{ Key := some "q/z", Size := some 3, LastModified := none }],
                CommonPrefixes := [], IsTruncated := some true,
                NextContinuationToken := none }
        else .error "should not be called again")
      1 "/q/" =
    some (.ok [{ name := "q/z", isDir := false, size := 3, lastModified := goZeroTime }]) := by
  have h := c10_pagination_terminates.2.1
    (fun key tok =>
      if key = "q/" ∧ tok = none then
        .ok { Contents := [{ Key := some "q/z", Size := some 3, LastModified := none }],
              CommonPrefixes := [], IsTruncated := some true, NextContinuationToken := none }
      else .error "should not be called again")
    "/q/"
    { Contents := [{ Key := some "q/z", Size := some 3, LastModified := none }],
      CommonPrefixes := [], IsTruncated := some true, NextContinuationToken := none }
    0 rfl rfl
  rw [h]
  rfl

theorem humLoop_bounds :
    ∀ fuel n b exp, n = b / 1000 ^ (exp + 1) → 1000 ^ (exp + 1) ≤ b → n < fuel →
      (humLoop fuel n (1000 ^ (exp + 1)) exp).1 =
        1000 ^ ((humLoop fuel n (1000 ^ (exp + 1)) exp).2 + 1) ∧
      1000 ^ ((humLoop fuel n (1000 ^ (exp + 1)) exp).2 + 1) ≤ b ∧
      b < 1000 ^ ((humLoop fuel n (1000 ^ (exp + 1)) exp).2 + 2) := by
  intro fuel
  induction fuel with
  | zero => intro n b exp _ _ h; omega
  | succ fuel ih =>
    intro n b exp hn hle hfuel
    simp only [humLoop]
    by_cases h : 1000 ≤ n
    · rw [if_pos h]
      have hpow : (0 : Nat) < 1000 ^ (exp + 1) := Nat.pos_pow_of_pos _ (by omega)
      have hml : 1000 * 1000 ^ (exp + 1) ≤ b :=
        (Nat.le_div_iff_mul_le hpow).mp (by omega : 1000 ≤ b / 1000 ^ (exp + 1))
      have hb2 : 1000 ^ (exp + 2) ≤ b := by
        have hh : (1000 : Nat) ^ (exp + 2) = 1000 * 1000 ^ (exp + 1) := by ring
        omega
      have hq : n / 1000 = b / 1000 ^ (exp + 2) := by
        rw [hn, Nat.div_div_eq_div_mul,
          show (1000 : Nat) ^ (exp + 1) * 1000 = 1000 ^ (exp + 2) by ring]
      have hfuel' : n / 1000 < fuel := by
        have : n / 1000 < n := Nat.div_lt_self (by omega) (by omega)
        omega
      rw [show (1000 : Nat) ^ (exp + 1) * 1000 = 1000 ^ (exp + 1 + 1) by ring]
      exact ih (n / 1000) b (exp + 1) hq hb2 hfuel'
    · rw [if_neg h]
      refine ⟨rfl, hle, ?_⟩
      show b < 1000 ^ (exp + 2)
      have hlt : b / 1000 ^ (exp + 1) < 1000 := by omega
      have hpow : (0 : Nat) < 1000 ^ (exp + 1) := Nat.pos_pow_of_pos _ (by omega)
      have hm := (Nat.div_lt_iff_lt_mul hpow).mp hlt
      have hp : (1000 : Nat) ^ (exp + 2) = 1000 * 1000 ^ (exp + 1) := by ring
      omega

/-- C7: `humanizeBytes` renders byte counts below 1000 as "<n> B" and
otherwise divides by powers of 1000 (not 1024), choosing the unit exponent
into "kMGTPE" so that `1000^(exp+1) <= b < 1000^(exp+2)` (hence the scaled
value `b / 1000^(exp+1)` is below 1000), formatting with two decimals; the
five example values of the specification evaluate as stated. -/
theorem c7_humanize_bytes :
    (humanizeBytes 0 = "0 B" ∧ humanizeBytes 999 = "999 B" ∧
      humanizeBytes 1000 = "1.00 kB" ∧ humanizeBytes 1500000 = "1.50 MB" ∧
      humanizeBytes 1000000000000 = "1.00 TB") ∧
    (∀ b : Int, b < 1000 → humanizeBytes b = toString b ++ " B") ∧
    (∀ b : Int, 1000 ≤ b →
      humanizeBytes b =
        formatFixed2 b.toNat
            (1000 ^ ((humLoop (b.toNat / 1000 + 1) (b.toNat / 1000) 1000 0).2 + 1)) ++ " " ++
          String.singleton (unitChar (humLoop (b.toNat / 1000 + 1) (b.toNat / 1000) 1000 0).2) ++
          "B" ∧
      1000 ^ ((humLoop (b.toNat / 1000 + 1) (b.toNat / 1000) 1000 0).2 + 1) ≤ b.toNat ∧
      b.toNat < 1000 ^ ((humLoop (b.toNat / 1000 + 1) (b.toNat / 1000) 1000 0).2 + 2)) := by
  refine ⟨⟨by decide, by decide, by decide, by decide, by decide⟩, ?_, ?_⟩
  · intro b hb
    rw [humanizeBytes, if_pos hb]
  · intro b hb
    have hbn : 1000 ≤ b.toNat := by omega
    have hb' : ¬ b < 1000 := by omega
    have hspec := humLoop_bounds (b.toNat / 1000 + 1) (b.toNat / 1000) b.toNat 0
      (by norm_num) (by simpa using hbn) (by omega)
    norm_num at hspec
    refine ⟨?_, hspec.2.1, hspec.2.2⟩
    rw [humanizeBytes, if_neg hb']
    simp only []
    rw [hspec.1]

/-- C9: `humanizeBytes` is total on the int64 range: every input below
1000 - negative values included - takes the "<n> B" branch, and for inputs
at or above 1000 the computed unit exponent is at most 5, within the bounds
of the six-character unit string "kMGTPE". -/
theorem c9_humanize_safety : ∀ b : Int, -(2 ^ 63) ≤ b → b < 2 ^ 63 →
    (b < 1000 → humanizeBytes b = toString b ++ " B") ∧
    (1000 ≤ b → (humLoop (b.toNat / 1000 + 1) (b.toNat / 1000) 1000 0).2 ≤ 5 ∧
      (humLoop (b.toNat / 1000 + 1) (b.toNat / 1000) 1000 0).2 < "kMGTPE".length) := by
  intro b _hlo hhi
  constructor
  · intro hb
    rw [humanizeBytes, if_pos hb]
  · intro hb
    have hbn : 1000 ≤ b.toNat := by omega
    have hspec := humLoop_bounds (b.toNat / 1000 + 1) (b.toNat / 1000) b.toNat 0
      (by norm_num) (by simpa using hbn) (by omega)
    norm_num at hspec
    have hup : b.toNat < 2 ^ 63 := by omega
    have hexp : (humLoop (b.toNat / 1000 + 1) (b.toNat / 1000) 1000 0).2 ≤ 5 := by
      by_contra hgt
      have h7 : 7 ≤ (humLoop (b.toNat / 1000 + 1) (b.toNat / 1000) 1000 0).2 + 1 := by omega
      have hmono : (1000 : Nat) ^ 7 ≤
          1000 ^ ((humLoop (b.toNat / 1000 + 1) (b.toNat / 1000) 1000 0).2 + 1) :=
        Nat.pow_le_pow_right (by omega) h7
      have hcmp : (2 : Nat) ^ 63 < 1000 ^ 7 := by decide
      omega
    have hlen : "kMGTPE".length = 6 := rfl
    exact ⟨hexp, by omega⟩

/-- Witness for C7 at -5 (B branch) and 2048 (kB branch). -/
theorem c7_witness :
    humanizeBytes (-5) = toString (-5 : Int) ++ " B" ∧
    (humanizeBytes 2048 =
      formatFixed2 (2048 : Int).toNat
          (1000 ^ ((humLoop ((2048 : Int).toNat / 1000 + 1) ((2048 : Int).toNat / 1000)
            1000 0).2 + 1)) ++ " " ++
        String.singleton (unitChar ((humLoop ((2048 : Int).toNat / 1000 + 1)
          ((2048 : Int).toNat / 1000) 1000 0).2)) ++ "B" ∧
      1000 ^ ((humLoop ((2048 : Int).toNat / 1000 + 1) ((2048 : Int).toNat / 1000)
        1000 0).2 + 1) ≤ (2048 : Int).toNat ∧
      (2048 : Int).toNat < 1000 ^ ((humLoop ((2048 : Int).toNat / 1000 + 1)
        ((2048 : Int).toNat / 1000) 1000 0).2 + 2)) :=
  ⟨c7_humanize_bytes.2.1 (-5) (by decide), c7_humanize_bytes.2.2 2048 (by decide)⟩

/-- Witness for C9 at 5000. -/
theorem c9_witness :
    (humLoop ((5000 : Int).toNat / 1000 + 1) ((5000 : Int).toNat / 1000) 1000 0).2 ≤ 5 ∧
    (humLoop ((5000 : Int).toNat / 1000 + 1) ((5000 : Int).toNat / 1000) 1000 0).2 <
      "kMGTPE".length :=
  (c9_humanize_safety 5000 (by decide) (by decide)).2 (by decide)

theorem getLastD_cons : ∀ (X : List Nat) (c sc : Nat),
    (c :: X).getLast?.getD sc = X.getLast?.getD c := by
  intro X
  induction X with
  | nil => intro c sc; rfl
  | cons y Y ih =>
    intro c sc
    rw [List.getLast?_cons_cons, ih y sc, ih y c]

theorem wrapped_fst : ∀ (acts : List HAction) (w : RespW) (sc : Nat),
    (acts.foldl wrapStep (w, sc)).1 = acts.foldl innerStep w := by
  intro acts
  induction acts with
  | nil => intro w sc; rfl
  | cons a rest ih =>
    intro w sc
    cases a <;> simp [List.foldl, wrapStep, innerStep, ih]

theorem wrapped_snd : ∀ (acts : List HAction) (w : RespW) (sc : Nat),
    (acts.foldl wrapStep (w, sc)).2 = (explicitCodes acts).getLast?.getD sc := by
  intro acts
  induction acts with
  | nil => intro w sc; rfl
  | cons a rest ih =>
    intro w sc
    cases a with
    | write s => simpa [List.foldl, wrapStep, explicitCodes] using ih _ sc
    | setHeader k v => simpa [List.foldl, wrapStep, explicitCodes] using ih _ sc
    | writeHeader c =>
      simp only [List.foldl, wrapStep, explicitCodes, List.filterMap_cons]
      rw [ih _ c]
      rw [show (List.filterMap
        (fun a => match a with | HAction.writeHeader c => some c | _ => none) rest) =
        explicitCodes rest from rfl]
      rw [getLastD_cons]

theorem headerCalls_respWrite (w : RespW) (s : String) :
    (respWrite w s).headerCalls = w.headerCalls := by
  simp only [respWrite, respCommit]
  split <;> rfl

theorem headerCalls_respWriteHeader (w : RespW) (c : Nat) :
    (respWriteHeader w c).headerCalls = w.headerCalls ++ [c] := by
  simp only [respWriteHeader, respCommit]
  split <;> rfl

theorem headerCalls_httpError (w : RespW) (e : String) (c : Nat) :
    (httpError w e c).headerCalls = w.headerCalls ++ [c] := by
  simp only [httpError, headerCalls_respWrite, headerCalls_respWriteHeader, respSetHeader]

theorem headerCalls_httpRedirect (w : RespW) (u : String) (c : Nat) :
    (httpRedirect w u c).headerCalls = w.headerCalls ++ [c] := by
  simp only [httpRedirect]
  split <;> simp [headerCalls_respWrite, headerCalls_respWriteHeader, respSetHeader]

theorem headerCalls_renderFileList (presign : PresignAPI) (w : RespW) (path : String)
    (list : List file) :
    (renderFileList presign w path list).1.headerCalls = w.headerCalls := by
  simp only [renderFileList]
  cases hre : renderLoop presign (sortSliceFiles list)
      (tabFormat (String.join (List.map rowString (sortSliceFiles list)))) with
  | error e =>
    simp only [hre]
    split <;> simp [headerCalls_respWrite, respSetHeader]
  | ok c =>
    simp only [hre]
    split <;> simp [headerCalls_respWrite, respSetHeader]

theorem loggedStatus_short (r : RespW)
    (h : r.headerCalls = [] ∨ ∃ c, r.headerCalls = [c]) :
    r.headerCalls.length ≤ 1 ∧ loggedStatus r = r.headerCalls.headD 200 := by
  rcases h with h | ⟨c, h⟩ <;> simp [loggedStatus, h]

theorem handler_headerCalls (api : S3ListAPI) (presign : PresignAPI) (fuel : Nat)
    (path : String) (r : RespW) (hr : buildHandler api presign fuel path emptyResp = some r) :
    r.headerCalls = [] ∨ ∃ c, r.headerCalls = [c] := by
  unfold buildHandler at hr
  by_cases hd : endsWithSlash path = true
  · rw [if_pos hd] at hr
    cases hl : listObjectsByPrefix api fuel path with
    | none => rw [hl] at hr; exact absurd hr (by simp)
    | some res =>
      cases res with
      | error e =>
        rw [hl] at hr
        simp only [Option.some.injEq] at hr
        subst hr
        right
        exact ⟨500, by simp [headerCalls_httpError, emptyResp]⟩
      | ok list =>
        rw [hl] at hr
        rcases hrf : renderFileList presign emptyResp path list with ⟨w', oe⟩
        have hw' : w'.headerCalls = [] := by
          have := headerCalls_renderFileList presign emptyResp path list
          rw [hrf] at this
          simpa [emptyResp] using this
        cases oe with
        | none =>
          simp only [hrf, Option.some.injEq] at hr
          subst hr
          exact Or.inl hw'
        | some e =>
          simp only [hrf, Option.some.injEq] at hr
          subst hr
          right
          exact ⟨500, by simp [headerCalls_httpError, hw']⟩
  · rw [if_neg hd] at hr
    cases hp : getPreSignedLink presign path (5 * timeMinute) with
    | error e =>
      rw [hp] at hr
      simp only [Option.some.injEq] at hr
      subst hr
      right
      exact ⟨500, by simp [headerCalls_httpError, emptyResp]⟩
    | ok link =>
      rw [hp] at hr
      simp only [Option.some.injEq] at hr
      subst hr
      right
      exact ⟨308, by simp [headerCalls_httpRedirect, emptyResp]⟩

/-- C8: the logging wrapper delegates every action unchanged, so the wire
response equals the unwrapped one; its recorded status is the last
`WriteHeader` code (200 when there is none), which coincides with the first
status code set whenever the handler performs at most one explicit
`WriteHeader` - and every request of this program's handler performs at most
one, so for every request the wrapper records the first status code the
handler sets, defaulting to 200. -/
theorem c8_logging_wrapper :
    (∀ acts : List HAction, (runWrapped acts).1 = runInner acts) ∧
    (∀ acts : List HAction, (runWrapped acts).2 = (explicitCodes acts).getLast?.getD 200) ∧
    (∀ acts : List HAction, (explicitCodes acts).length ≤ 1 →
      (runWrapped acts).2 = (explicitCodes acts).headD 200) ∧
    (∀ (api : S3ListAPI) (presign : PresignAPI) (fuel : Nat) (path : String) (r : RespW),
      buildHandler api presign fuel path emptyResp = some r →
      r.headerCalls.length ≤ 1 ∧ loggedStatus r = r.headerCalls.headD 200) := by
  refine ⟨?_, ?_, ?_, ?_⟩
  · intro acts
    exact wrapped_fst acts emptyResp 200
  · intro acts
    exact wrapped_snd acts emptyResp 200
  · intro acts h
    unfold runWrapped
    rw [wrapped_snd acts emptyResp 200]
    match hec : explicitCodes acts with
    | [] => rfl
    | [c] => rfl
    | a :: b :: t => rw [hec] at h; simp at h
  · intro api presign fuel path r hr
    exact loggedStatus_short r (handler_headerCalls api presign fuel path r hr)

/-- Witness for C8 at a concrete action trace and a concrete request. -/
theorem c8_witness :
    (runWrapped [HAction.setHeader "Content-Type" "text/plain; charset=utf-8",
        HAction.writeHeader 500, HAction.write "oops\n"]).1 =
      runInner [HAction.setHeader "Content-Type" "text/plain; charset=utf-8",
        HAction.writeHeader 500, HAction.write "oops\n"] ∧
    (runWrapped [HAction.setHeader "Content-Type" "text/plain; charset=utf-8",
        HAction.writeHeader 500, HAction.write "oops\n"]).2 =
      (explicitCodes [HAction.setHeader "Content-Type" "text/plain; charset=utf-8",
        HAction.writeHeader 500, HAction.write "oops\n"]).headD 200 ∧
    ((buildHandler (fun _ _ => .error "io fail") (fun _ _ => .ok "u") 1 "/x/"
        emptyResp).map (fun r => (r.headerCalls.length ≤ 1 : Bool) )) = some true := by
  refine ⟨c8_logging_wrapper.1 _, c8_logging_wrapper.2.2.1 _ (by decide), ?_⟩
  have h := c8_logging_wrapper.2.2.2 (fun _ _ => .error "io fail") (fun _ _ => .ok "u") 1 "/x/"
    (httpError emptyResp "io fail" 500) (by rfl)
  rw [show buildHandler (fun _ _ => .error "io fail") (fun _ _ => .ok "u") 1 "/x/" emptyResp =
    some (httpError emptyResp "io fail" 500) from rfl]
  simp [h.1]

theorem flatten_singletons : ∀ (l : List Char), (∀ c ∈ l, c.toNat < 128) →
    (l.map fun c =>
      if c.toNat < 128 then [c]
      else ((utf8Bytes c).map fun b => ['%', hexDigit (b / 16), hexDigit (b % 16)]).flatten).flatten
      = l := by
  intro l
  induction l with
  | nil => intro _; rfl
  | cons c rest ih =>
    intro h
    have hc : c.toNat < 128 := h c (by simp)
    simp only [List.map_cons, List.flatten_cons, if_pos hc]
    rw [ih fun x hx => h x (by simp [hx])]
    rfl

theorem hexEscapeNonASCII_ascii (s : String) (h : stringIsASCII s = true) :
    hexEscapeNonASCII s = s := by
  unfold hexEscapeNonASCII
  rw [flatten_singletons s.data (by simpa [stringIsASCII, List.all_eq_true] using h)]

/-- C4 (amended): in object mode (no trailing separator) the dispatcher
obtains the temporary link for the RAW request path - the leading separator
is NOT stripped (unlike the listing path; see the counterexample) - with the
fixed five-minute validity, and on success responds 308 with the URL as
`Location`; on signing error it responds 500 with the error text as body. -/
theorem c4_object_mode_redirect_raw_path :
    (∀ (api : S3ListAPI) (presign : PresignAPI) (fuel : Nat) (path url : String),
      endsWithSlash path = false → presign path (5 * timeMinute) = .ok url →
      stringIsASCII url = true →
      buildHandler api presign fuel path emptyResp = some (httpRedirect emptyResp url 308) ∧
      (httpRedirect emptyResp url 308).committedStatus = some 308 ∧
      getAssoc (httpRedirect emptyResp url 308).committedHeaders "Location" = some url) ∧
    (∀ (api : S3ListAPI) (presign : PresignAPI) (fuel : Nat) (path e : String),
      endsWithSlash path = false → presign path (5 * timeMinute) = .error e →
      buildHandler api presign fuel path emptyResp = some (httpError emptyResp e 500) ∧
      (httpError emptyResp e 500).committedStatus = some 500 ∧
      (httpError emptyResp e 500).body = e ++ "\n") := by
  constructor
  · intro api presign fuel path url hdir hp hascii
    refine ⟨?_, ?_, ?_⟩
    · unfold buildHandler
      rw [if_neg (by simp [hdir])]
      simp [getPreSignedLink, hp]
    · simp [httpRedirect, respWriteHeader, respCommit, respSetHeader, respWrite, emptyResp,
        getAssoc, setAssoc]
    · simp [httpRedirect, respWriteHeader, respCommit, respSetHeader, respWrite, emptyResp,
        getAssoc, setAssoc, hexEscapeNonASCII_ascii url hascii]
  · intro api presign fuel path e hdir hp
    refine ⟨?_, by rfl, ?_⟩
    · unfold buildHandler
      rw [if_neg (by simp [hdir])]
      simp [getPreSignedLink, hp]
    · simp [httpError, respWriteHeader, respCommit, respSetHeader, respWrite, emptyResp,
        string_nil_append]

/-- C4 counterexample: with a presigner that embeds its key argument in the
returned URL, the redirect for path `/a.txt` carries the key `/a.txt`
(double slash in the location), not the stripped key `a.txt` the claim
asserts. -/
theorem c4_counterexample_leading_separator :
    (buildHandler (fun _ _ => .error "unused")
        (fun key _ => .ok ("https://s/" ++ key)) 1 "/a.txt" emptyResp).map
      (fun r => getAssoc r.committedHeaders "Location") = some (some "https://s//a.txt") ∧
    "https://s//a.txt" ≠ "https://s/" ++ trimLeadingSlash "/a.txt" := by
  exact ⟨by decide, by decide⟩

/-- Witness for C4 at a concrete object request. -/
theorem c4_witness :
    buildHandler (fun _ _ => .error "unused") (fun _ _ => .ok "https://ok/x") 1 "/obj"
      emptyResp = some (httpRedirect emptyResp "https://ok/x" 308) ∧
    (httpRedirect emptyResp "https://ok/x" 308).committedStatus = some 308 ∧
    getAssoc (httpRedirect emptyResp "https://ok/x" 308).committedHeaders "Location" =
      some "https://ok/x" :=
  c4_object_mode_redirect_raw_path.1 (fun _ _ => .error "unused") (fun _ _ => .ok "https://ok/x") 1 "/obj"
    "https://ok/x" (by decide) rfl (by decide)

theorem renderLoop_error (presign : PresignAPI) (e : String) :
    ∀ (fs : List file) (f0 : file) (content : String),
      fs.find? (fun f => !f.isDir) = some f0 →
      presign f0.name (5 * timeMinute) = .error e →
      renderLoop presign fs content =
        .error ("error getting presigned link for " ++ f0.name ++ ": " ++ e) := by
  intro fs
  induction fs with
  | nil => intro f0 content h _; simp [List.find?] at h
  | cons f rest ih =>
    intro f0 content hfind hp
    by_cases hdir : f.isDir
    · have hrest : rest.find? (fun f => !f.isDir) = some f0 := by
        simpa [List.find?, hdir] using hfind
      simp only [renderLoop, if_pos hdir]
      exact ih f0 _ hrest hp
    · have hf : f = f0 := by
        have := hfind
        simp [List.find?, hdir] at this
        exact this
      subst hf
      simp [renderLoop, hdir, getPreSignedLink, hp]

theorem renderLoop_error2 (presign : PresignAPI) (e : String) :
    ∀ (fs : List file) (f0 : file) (content : String),
      fs.find? (presignFails presign) = some f0 →
      presign f0.name (5 * timeMinute) = .error e →
      renderLoop presign fs content =
        .error ("error getting presigned link for " ++ f0.name ++ ": " ++ e) := by
  intro fs
  induction fs with
  | nil => intro f0 content h _; simp [List.find?] at h
  | cons f rest ih =>
    intro f0 content hfind hp
    by_cases hfail : presignFails presign f = true
    · have hf : f = f0 := by
        have := hfind
        simp [List.find?, hfail] at this
        exact this
      subst hf
      have hdir : f.isDir = false := by
        simp only [presignFails, Bool.and_eq_true, Bool.not_eq_true'] at hfail
        exact hfail.1
      simp [renderLoop, hdir, getPreSignedLink, hp]
    · have hrest : rest.find? (presignFails presign) = some f0 := by
        simpa [List.find?, hfail] using hfind
      by_cases hdir : f.isDir
      · simp only [renderLoop, if_pos hdir]
        exact ih f0 _ hrest hp
      · have hok : ∃ link, presign f.name (5 * timeMinute) = .ok link := by
          cases hpre : presign f.name (5 * timeMinute) with
          | error e' =>
            exact absurd (by simp [presignFails, hdir, hpre]) hfail
          | ok link => exact ⟨link, rfl⟩
        obtain ⟨link, hlink⟩ := hok
        simp only [renderLoop, if_neg hdir, getPreSignedLink, hlink]
        exact ih f0 _ hrest hp

/-- C5 (amended): when presigning fails for ANY object entry of the sorted
listing, the render aborts at the first such entry before any entry row is
written (only the preamble: `<pre>` opener, current path, up-link section)
and returns the rendering error; any failing object entry guarantees such a
first failing entry exists; but because the preamble write already committed
the response with status 200, the dispatcher's subsequent `http.Error` 500
does not change the wire status - the client sees status 200 with the error
text appended after the partial preamble. -/
theorem c5_render_abort_after_preamble :
    (∀ (presign : PresignAPI) (path : String) (list : List file) (f0 : file) (e : String),
      (sortSliceFiles list).find? (presignFails presign) = some f0 →
      presign f0.name (5 * timeMinute) = .error e →
      renderFileList presign emptyResp path list =
        ({ pending := [("Content-Type", "text/html; charset=utf-8")],
           committedStatus := some 200,
           committedHeaders := [("Content-Type", "text/html; charset=utf-8")],
           body := preambleBody path,
           headerCalls := [] },
         some ("error getting presigned link for " ++ f0.name ++ ": " ++ e))) ∧
    (∀ (presign : PresignAPI) (list : List file) (f1 : file) (e1 : String),
      f1 ∈ sortSliceFiles list → f1.isDir = false →
      presign f1.name (5 * timeMinute) = .error e1 →
      ∃ f0 e, (sortSliceFiles list).find? (presignFails presign) = some f0 ∧
        f0.isDir = false ∧ presign f0.name (5 * timeMinute) = .error e) ∧
    (∀ (w : RespW) (msg : String), w.committedStatus = some 200 →
      (httpError w msg 500).committedStatus = some 200 ∧
      (httpError w msg 500).body = w.body ++ (msg ++ "\n")) := by
  refine ⟨?_, ?_, ?_⟩
  · intro presign path list f0 e hfind hp
    simp only [renderFileList]
    rw [renderLoop_error2 presign e (sortSliceFiles list) f0 _ hfind hp]
    by_cases hroot : path = "/"
    · subst hroot
      simp [respWrite, respCommit, respSetHeader, setAssoc, emptyResp, preambleBody,
        upSection, string_nil_append, String.append_assoc]
    · rw [if_neg hroot]
      simp [respWrite, respCommit, respSetHeader, setAssoc, emptyResp, preambleBody, upSection,
        if_neg hroot, upHref, string_nil_append, String.append_assoc]
  · intro presign list f1 e1 hmem hdir herr
    have hsat : presignFails presign f1 = true := by
      simp [presignFails, hdir, herr]
    have hsome : ((sortSliceFiles list).find? (presignFails presign)).isSome := by
      rw [List.find?_isSome]
      exact ⟨f1, hmem, hsat⟩
    obtain ⟨f0, hfind⟩ := Option.isSome_iff_exists.mp hsome
    have hf0 : presignFails presign f0 = true := List.find?_some hfind
    simp only [presignFails, Bool.and_eq_true, Bool.not_eq_true'] at hf0
    obtain ⟨hf0dir, hf0match⟩ := hf0
    cases hpre : presign f0.name (5 * timeMinute) with
    | error e =>
      exact ⟨f0, e, hfind, hf0dir, hpre⟩
    | ok link =>
      rw [hpre] at hf0match
      exact absurd hf0match (by simp)
  · intro w msg hw
    constructor
    · simp [httpError, respWrite, respCommit, respWriteHeader, respSetHeader, hw]
    · simp [httpError, respWrite, respCommit, respWriteHeader, respSetHeader, hw]

/-- C5 counterexample: the claim says HTTP 500 with no listing content
written before the error; on this concrete request the wire status is 200
and the page preamble precedes the error text in the body. -/
theorem c5_counterexample_partial_page_status_200 :
    (buildHandler
        (fun key tok =>
          if key = "d/" ∧ tok = none then
            .ok { Contents := [{ Key := some "d/x", Size := some 0, LastModified := none }],
                  CommonPrefixes := [], IsTruncated := none, NextContinuationToken := none }
          else .error "unexpected")
        (fun _ _ => .error "boom") 2 "/d/" emptyResp).map
      (fun r => (r.committedStatus, r.body)) =
      some (some 200,
        "<pre>\n/d/\n\n<a href=\"/d/..\">..</a>\nerror getting presigned link for d/x: boom\n") ∧
    (some 200 : Option Nat) ≠ some 500 ∧
    ("<pre>\n/d/\n\n<a href=\"/d/..\">..</a>\n" : String) ≠ "" := by
  refine ⟨by decide, by decide, by decide⟩

/-- Witness for C5 at a concrete failing render: the first object entry of
the sorted listing presigns fine, the second one fails. -/
theorem c5_witness :
    renderFileList
        (fun k _ => if k = "d/b" then .error "boom" else .ok "u") emptyResp "/d/"
        [{ name := "d/b", isDir := false, size := 0, lastModified := goZeroTime },
         { name := "d/a", isDir := false, size := 0, lastModified := goZeroTime }] =
      ({ pending := [("Content-Type", "text/html; charset=utf-8")],
         committedStatus := some 200,
         committedHeaders := [("Content-Type", "text/html; charset=utf-8")],
         body := preambleBody "/d/",
         headerCalls := [] },
       some ("error getting presigned link for " ++ "d/b" ++ ": " ++ "boom")) ∧
    (httpError (respWrite emptyResp "partial") "boom" 500).committedStatus = some 200 :=
  ⟨c5_render_abort_after_preamble.1
      (fun k _ => if k = "d/b" then .error "boom" else .ok "u") "/d/"
      [{ name := "d/b", isDir := false, size := 0, lastModified := goZeroTime },
       { name := "d/a", isDir := false, size := 0, lastModified := goZeroTime }]
      { name := "d/b", isDir := false, size := 0, lastModified := goZeroTime } "boom"
      (by decide) rfl,
   (c5_render_abort_after_preamble.2.2 (respWrite emptyResp "partial") "boom" rfl).1⟩

theorem splitSlash_ne_nil : ∀ l : List Char, splitSlash l ≠ [] := by
  intro l
  induction l with
  | nil => simp [splitSlash, splitOnChar]
  | cons c rest ih =>
    simp only [splitSlash, splitOnChar, List.foldr_cons]
    cases h : (rest.foldr (splitCharStep '/') [[]] : List (List Char)) with
    | nil => exact absurd h ih
    | cons a as => simp [splitCharStep]; split <;> simp

theorem splitSlash_slash_cons (ys : List Char) :
    splitSlash ('/' :: ys) = [] :: splitSlash ys := by
  simp only [splitSlash, splitOnChar, List.foldr_cons]
  cases h : (ys.foldr (splitCharStep '/') [[]] : List (List Char)) with
  | nil => exact absurd h (splitSlash_ne_nil ys)
  | cons a as => simp [splitCharStep]

theorem splitSlash_seg_slash (a : List Char) (ha : '/' ∉ a) :
    ∀ Z, splitSlash (a ++ '/' :: Z) = a :: splitSlash Z := by
  induction a with
  | nil => intro Z; simpa using splitSlash_slash_cons Z
  | cons c a' ih =>
    intro Z
    have hc : c ≠ '/' := by intro h; exact ha (by simp [h])
    have ha' : '/' ∉ a' := fun h => ha (by simp [h])
    simp only [List.cons_append, splitSlash, splitOnChar, List.foldr_cons]
    have := ih ha' Z
    simp only [splitSlash, splitOnChar] at this
    rw [this]
    simp [splitCharStep, hc]

theorem splitSlash_slashfree (a : List Char) (ha : '/' ∉ a) : splitSlash a = [a] := by
  induction a with
  | nil => rfl
  | cons c a' ih =>
    have hc : c ≠ '/' := by intro h; exact ha (by simp [h])
    have ha' : '/' ∉ a' := fun h => ha (by simp [h])
    simp only [splitSlash, splitOnChar, List.foldr_cons]
    have := ih ha'
    simp only [splitSlash, splitOnChar] at this
    rw [this]
    simp [splitCharStep, hc]

theorem splitSlash_flatten (ys : List Char) :
    ∀ init : List (List Char), (∀ s ∈ init, '/' ∉ s) →
      splitSlash ((init.map fun s => s ++ ['/']).flatten ++ ys) = init ++ splitSlash ys := by
  intro init
  induction init with
  | nil => intro _; simp
  | cons a init' ih =>
    intro h
    have ha : '/' ∉ a := h a (by simp)
    have hrest : ∀ s ∈ init', '/' ∉ s := fun s hs => h s (by simp [hs])
    simp only [List.map_cons, List.flatten_cons, List.append_assoc]
    show splitSlash (a ++ '/' :: ((init'.map fun s => s ++ ['/']).flatten ++ ys)) =
      a :: init' ++ splitSlash ys
    rw [splitSlash_seg_slash a ha, ih hrest]
    rfl

theorem charsBeforeLastSlash_concat (X : List Char) :
    charsBeforeLastSlash (X ++ ['/']) = X := by
  simp [charsBeforeLastSlash, List.dropWhile]

theorem rds_normal :
    ∀ (init out : List (List Char)) (r : List Char) (rs : List (List Char)),
      (∀ s ∈ init, s ≠ ['.'] ∧ s ≠ ['.', '.']) →
      removeDotSegments out (init ++ r :: rs) = removeDotSegments (out ++ init) (r :: rs) := by
  intro init
  induction init with
  | nil => intro out r rs _; simp
  | cons s init' ih =>
    intro out r rs h
    have hs := h s (by simp)
    have hrest : ∀ x ∈ init', x ≠ ['.'] ∧ x ≠ ['.', '.'] := fun x hx => h x (by simp [hx])
    cases hi : init' ++ r :: rs with
    | nil => exact absurd hi (by simp)
    | cons q qs =>
      rw [show (s :: init') ++ r :: rs = s :: (init' ++ r :: rs) from rfl, hi]
      rw [show removeDotSegments out (s :: q :: qs) =
        removeDotSegments (out ++ [s]) (q :: qs) by
          simp [removeDotSegments, hs.1, hs.2]]
      rw [← hi, ih (out ++ [s]) r rs hrest]
      simp

theorem upHref_data (path : String) :
    (upHref path).data = charsBeforeLastSlash path.data ++ ['/', '.', '.'] := by
  simp [upHref, takeBeforeLastSlash, String.data_append]

theorem upHref_resolves (segs : List (List Char)) (h : wellFormedSegs segs) :
    resolveAbsPath (upHref ⟨joinDirSegs segs⟩).data =
      (splitSlash (joinDirSegs segs.dropLast)).tail := by
  obtain ⟨hne, hseg⟩ := h
  rcases List.eq_nil_or_concat segs with rfl | ⟨init, last, rfl⟩
  · exact absurd rfl hne
  simp only [List.concat_eq_append] at hne hseg ⊢
  have hinit_slash : ∀ s ∈ init, '/' ∉ s := fun s hs => (hseg s (by simp [hs])).2.1
  have hinit_dots : ∀ s ∈ init, s ≠ ['.'] ∧ s ≠ ['.', '.'] := fun s hs =>
    ⟨(hseg s (by simp [hs])).2.2.1, (hseg s (by simp [hs])).2.2.2⟩
  have hlast := hseg last (by simp)
  rw [upHref_data]
  have hjoin : joinDirSegs (init ++ [last]) =
      (joinDirSegs init ++ last) ++ ['/'] := by
    simp [joinDirSegs]
  rw [show (String.mk (joinDirSegs (init ++ [last]))).data =
    joinDirSegs (init ++ [last]) from rfl]
  rw [hjoin, charsBeforeLastSlash_concat]
  unfold resolveAbsPath
  have hsplit : splitSlash ((joinDirSegs init ++ last) ++ ['/', '.', '.']) =
      [] :: (init ++ [last, ['.', '.']]) := by
    rw [show (joinDirSegs init ++ last) ++ ['/', '.', '.'] =
      '/' :: ((init.map fun s => s ++ ['/']).flatten ++ (last ++ '/' :: ['.', '.'])) by
        simp [joinDirSegs]]
    rw [splitSlash_slash_cons, splitSlash_flatten _ init hinit_slash,
      splitSlash_seg_slash last hlast.2.1, splitSlash_slashfree ['.', '.'] (by decide)]
  rw [hsplit]
  rw [show ([] :: (init ++ [last, ['.', '.']])).tail = init ++ last :: [['.', '.']] from rfl]
  rw [rds_normal init [] last [['.', '.']] hinit_dots]
  rw [show removeDotSegments ([] ++ init) (last :: [['.', '.']]) =
    removeDotSegments (init ++ [last]) [['.', '.']] by
      simp [removeDotSegments, hlast.2.2.1, hlast.2.2.2]]
  rw [show removeDotSegments (init ++ [last]) [['.', '.']] =
    (init ++ [last]).dropLast ++ [[]] by simp [removeDotSegments]]
  rw [List.dropLast_concat]
  have hrhs : splitSlash (joinDirSegs init) = [] :: (init ++ [[]]) := by
    rw [show joinDirSegs init = '/' :: ((init.map fun s => s ++ ['/']).flatten ++ []) by
      simp [joinDirSegs]]
    rw [splitSlash_slash_cons, splitSlash_flatten _ init hinit_slash]
    rfl
  rw [hrhs]
  rfl

theorem body_respWrite (w : RespW) (s : String) : (respWrite w s).body = w.body ++ s := by
  simp only [respWrite, respCommit]
  split <;> rfl

theorem body_respSetHeader (w : RespW) (k v : String) :
    (respSetHeader w k v).body = w.body := rfl

/-- C6: the root path "/" renders no up link; every non-root path renders
exactly one up anchor, placed between the page header and the entry table,
whose href is the path truncated at its last separator with "/.." appended;
for every well-formed directory path this href resolves (RFC 3986 dot-segment
removal) to the request path with its final segment removed. -/
theorem c6_up_link :
    upSection "/" = "" ∧
    (∀ path : String, path ≠ "/" →
      upSection path = "<a href=\"" ++ upHref path ++ "\">..</a>\n") ∧
    (∀ (presign : PresignAPI) (w : RespW) (path : String) (list : List file),
      ∃ t, (renderFileList presign w path list).1.body =
        w.body ++ "<pre>\n" ++ path ++ "\n\n" ++ upSection path ++ t) ∧
    (∀ segs : List (List Char), wellFormedSegs segs →
      resolveAbsPath (upHref ⟨joinDirSegs segs⟩).data =
        (splitSlash (joinDirSegs segs.dropLast)).tail) := by
  refine ⟨rfl, ?_, ?_, upHref_resolves⟩
  · intro path h
    simp [upSection, h]
  · intro presign w path list
    rcases hre : renderLoop presign (sortSliceFiles list)
        (tabFormat (String.join ((sortSliceFiles list).map rowString))) with e | c
    · refine ⟨"", ?_⟩
      by_cases hpath : path = "/" <;>
        simp [renderFileList, hre, hpath, body_respWrite, body_respSetHeader, upSection,
          upHref, takeBeforeLastSlash, string_nil_append, String.append_assoc]
    · refine ⟨c ++ "\n</pre>\n", ?_⟩
      by_cases hpath : path = "/" <;>
        simp [renderFileList, hre, hpath, body_respWrite, body_respSetHeader, upSection,
          upHref, takeBeforeLastSlash, string_nil_append, String.append_assoc]

/-- Witness for C6 at the path "/d/" and the segment list a, b. -/
theorem c6_witness :
    upSection "/d/" = "<a href=\"" ++ upHref "/d/" ++ "\">..</a>\n" ∧
    (∃ t, (renderFileList (fun _ _ => .ok "u") emptyResp "/d/" []).1.body =
      emptyResp.body ++ "<pre>\n" ++ "/d/" ++ "\n\n" ++ upSection "/d/" ++ t) ∧
    resolveAbsPath (upHref ⟨joinDirSegs [['a'], ['b']]⟩).data =
      (splitSlash (joinDirSegs ([['a'], ['b']] : List (List Char)).dropLast)).tail :=
  ⟨c6_up_link.2.1 "/d/" (by decide),
   c6_up_link.2.2.1 (fun _ _ => .ok "u") emptyResp "/d/" [],
   c6_up_link.2.2.2 [['a'], ['b']] (by constructor <;> decide)⟩

